import Mathlib

/-!
Verification of the voice-journal memory engine.

Shallow embedding of the repository's core logic:
- the Redis-backed journal store (`src/journal_store.py`): soft delete,
  date-range / bulk delete, read paths, and the similarity+recency ranking
  of `search_similar`;
- the agent orchestrator (`src/voice_agent.py`): bounded conversation
  history and the delete-confirmation handler;
- the context assembler (`src/memory_client.py`): `get_combined_context`
  and the two guarded fetches it performs;
- the intent classifier (`src/intent_detector.py`): `detect` and its
  deterministic defaults.

External I/O (Redis commands, HTTP calls to the embedding / LLM / memory
services) is modelled by explicit state passing and by `Except Unit α`
outcomes for fallible collaborator calls.  Machine floats of the source are
modelled as exact rationals; clock readings are passed explicitly.
-/

namespace VoiceJournal

/-! ### Journal store (src/journal_store.py) -/

/-- One record of the `journal:entry:{id}` keyspace, restricted to the fields
the verified operations read.  `ts` is the `timestamp_unix` value, which is
also the entry's score in the user's timeline sorted set (both are set from
the same timestamp in `add_entry`). -/
structure JournalEntry where
  id : String
  user_id : String
  ts : ℚ
  transcript : String
  deleted : Bool
deriving Repr, DecidableEq

/-- The `journal:entry:*` keyspace.  Ids are the Redis keys; a well-formed
store has pairwise distinct ids (`StoreWF`). -/
abbrev Store := List JournalEntry

/-- Well-formedness: one record per Redis key. -/
def StoreWF (s : Store) : Prop := (s.map (fun e => e.id)).Nodup

/-- Embedding of `self.client.exists(key)` for an entry key. -/
def entry_key_exists (s : Store) (entry_id : String) : Bool :=
  s.any (fun e => e.id == entry_id)

/-- The write of `json().set(key, "$.deleted", "true")` on the record keyed
by `entry_id`, as a map over the keyspace. -/
def mark_deleted (entry_id : String) (e : JournalEntry) : JournalEntry :=
  if e.id == entry_id then { e with deleted := true } else e

/-- Embedding of `JournalStore.soft_delete`: if the key exists, set the
`deleted` field of that record and return `True`; otherwise return `False`.
The existence check does not look at the `deleted` flag. -/
def soft_delete (s : Store) (entry_id : String) : Store × Bool :=
  if s.any (fun e => e.id == entry_id) then
    (s.map (mark_deleted entry_id), true)
  else
    (s, false)

/-- Embedding of the raw `client.json().get(key)` read: first (only, in a
well-formed store) record stored under the key. -/
def raw_get (s : Store) (entry_id : String) : Option JournalEntry :=
  s.find? (fun e => e.id == entry_id)

/-- Embedding of `JournalStore.get_entry`: the raw read, with deleted
records filtered out (`if not data or data.get("deleted") == "true": return None`). -/
def get_entry (s : Store) (entry_id : String) : Option JournalEntry :=
  match raw_get s entry_id with
  | none => none
  | some e => if e.deleted then none else some e

/-- The user's timeline sorted set `journal:user:{user_id}:timeline`: every
entry ever added for the user (soft delete never removes timeline members),
ordered by score, i.e. by `timestamp_unix` (a stable sort; which stable sort
is immaterial). -/
def timeline (s : Store) (user_id : String) : List JournalEntry :=
  List.insertionSort (fun a b => a.ts ≤ b.ts) (s.filter (fun e => e.user_id == user_id))

/-- Embedding of `zrange(timeline_key, 0, -1)`: all timeline member ids. -/
def zrange_ids (s : Store) (user_id : String) : List String :=
  (timeline s user_id).map (fun e => e.id)

/-- Embedding of `zrangebyscore(timeline_key, start_ts, end_ts)`: ids of
timeline members whose score lies in the inclusive range. -/
def zrangebyscore_ids (s : Store) (user_id : String) (start stop : ℚ) : List String :=
  ((timeline s user_id).filter (fun e => decide (start ≤ e.ts) && decide (e.ts ≤ stop))).map
    (fun e => e.id)

/-- The shared loop of `delete_by_date_range` and `delete_all`: call
`soft_delete` on each id in turn, counting the calls that return `True`
(structural recursion over the id list embeds the source's `for` loop). -/
def apply_soft_deletes (s : Store) : List String → Store × Nat
  | [] => (s, 0)
  | eid :: rest =>
    let r := soft_delete s eid
    let next := apply_soft_deletes r.1 rest
    (next.1, (if r.2 then 1 else 0) + next.2)

/-- Embedding of `JournalStore.delete_by_date_range`. -/
def delete_by_date_range (s : Store) (user_id : String) (start stop : ℚ) : Store × Nat :=
  apply_soft_deletes s (zrangebyscore_ids s user_id start stop)

/-- Embedding of `JournalStore.delete_all`. -/
def delete_all (s : Store) (user_id : String) : Store × Nat :=
  apply_soft_deletes s (zrange_ids s user_id)

/-- Embedding of `JournalStore.get_entries_by_date_range`: look up each id in
the score range and keep the entries `get_entry` returns that are not
deleted (the second test is redundant in the source as well). -/
def get_entries_by_date_range (s : Store) (user_id : String) (start stop : ℚ) :
    List JournalEntry :=
  (zrangebyscore_ids s user_id start stop).filterMap
    (fun eid =>
      match get_entry s eid with
      | some e => if e.deleted then none else some e
      | none => none)

/-- Embedding of `JournalStore.get_entry_count`: the number of timeline ids
whose `get_entry` lookup yields a non-deleted entry. -/
def get_entry_count (s : Store) (user_id : String) : Nat :=
  ((zrange_ids s user_id).filter
    (fun eid =>
      match get_entry s eid with
      | some e => !e.deleted
      | none => false)).length

/-! #### search_similar

The query embedding is opaque here: the cosine distance of each stored
entry's embedding to the current query is passed as a function `d`.  The
RediSearch call `KNN {k*2}` over the filter `user_id` match and
`@deleted:{false}`, sorted ascending by the distance field, is modelled by
sorting the eligible entries by `d` and taking `k*2`.  The wall clock read
`datetime.now(...).timestamp()` is the explicit parameter `now`. -/

/-- The `max_age = 30 * 24 * 3600` normalization constant (30 days). -/
def max_age : ℚ := 30 * 24 * 3600

/-- Combined score of one candidate: `(1 - recency_boost) * similarity +
recency_boost * recency` with `similarity = 1 - distance` and
`recency = max(0, 1 - age / max_age)`. -/
def combined_score (recency_boost now dist ts : ℚ) : ℚ :=
  (1 - recency_boost) * (1 - dist) + recency_boost * max 0 (1 - (now - ts) / max_age)

/-- The KNN retrieval step: the `k*2` eligible (same user, not deleted)
entries nearest to the query by vector distance. -/
def knn_candidates (s : Store) (user_id : String) (d : JournalEntry → ℚ) (k : Nat) :
    List JournalEntry :=
  (List.insertionSort (fun a b => d a ≤ d b)
      (s.filter (fun e => e.user_id == user_id && !e.deleted))).take (k * 2)

/-- Embedding of `JournalStore.search_similar`: score every KNN candidate,
sort descending by combined score (a stable descending sort, as Python's
stable `sort(..., reverse=True)`) and truncate to `k`. -/
def search_similar (s : Store) (user_id : String) (d : JournalEntry → ℚ) (now : ℚ)
    (k : Nat) (recency_boost : ℚ) : List (JournalEntry × ℚ) :=
  (List.insertionSort (fun a b => b.2 ≤ a.2)
      ((knn_candidates s user_id d k).map
        (fun e => (e, combined_score recency_boost now (d e) e.ts)))).take k

/-- Default of the `k` parameter in the source signature. -/
def default_k : Nat := 5

/-- Default of the `recency_boost` parameter in the source signature
(`recency_boost: float = 0.3`). -/
def default_recency_boost : ℚ := 3 / 10

/-- `search_similar` as called with the signature defaults. -/
def search_similar_defaults (s : Store) (user_id : String) (d : JournalEntry → ℚ)
    (now : ℚ) : List (JournalEntry × ℚ) :=
  search_similar s user_id d now default_k default_recency_boost

/-! ### Agent orchestrator (src/voice_agent.py) -/

/-- One element of `AgentState.conversation_history`:
a `{"role": ..., "content": ...}` dict. -/
structure TurnMsg where
  role : String
  content : String
deriving Repr, DecidableEq

/-- The last `n` elements of a list; `l[-n:]` for `n > 0` in Python. -/
def last_n {α : Type} (n : Nat) (l : List α) : List α :=
  l.drop (l.length - n)

/-- The history update performed by `VoiceJournalAgent.process_input`: append
the user turn then the assistant turn, then trim to the most recent 20
entries when the length exceeds 20. -/
def record_turn (hist : List TurnMsg) (user_text response : String) : List TurnMsg :=
  let h := hist ++ [⟨"user", user_text⟩, ⟨"assistant", response⟩]
  if h.length > 20 then h.drop (h.length - 20) else h

/-- History evolution over a whole session: one `record_turn` per
`process_input` call. -/
def run_turns (turns : List (String × String)) (hist : List TurnMsg) : List TurnMsg :=
  turns.foldl (fun h p => record_turn h p.1 p.2) hist

/-- The untrimmed log of a session: user turn then assistant turn, in call
order. -/
def full_log (turns : List (String × String)) : List TurnMsg :=
  turns.flatMap (fun p => [⟨"user", p.1⟩, ⟨"assistant", p.2⟩])

/-- `AgentMode`. -/
inductive AgentMode where
  | log
  | chat
deriving Repr, DecidableEq

/-- The `state.pending_delete` descriptor: the source stores a dict with a
`"type"` tag and the parameters below (the `count` recorded for range/all
requests is not read back by the confirm handler). -/
inductive PendingDelete where
  | entry (entry_id : String)
  | range (start stop : ℚ) (count : Nat)
  | all (count : Nat)
deriving Repr, DecidableEq

/-- `AgentState` of the source, with `conversation_history` as above. -/
structure AgentState where
  mode : AgentMode
  pending_delete : Option PendingDelete
  last_entries_shown : List String
  conversation_history : List TurnMsg
deriving Repr, DecidableEq

/-- Embedding of `VoiceJournalAgent._handle_confirm_delete`.  Returns the
response text, the agent state, and the journal store.  With no pending
action it answers without touching anything; otherwise it clears the pending
action, executes it through the store, and reports the outcome.  (The
source's trailing `return "Something went wrong..."` is unreachable for a
well-typed pending action and has no counterpart here.) -/
def handle_confirm_delete (user_id : String) (st : AgentState) (s : Store) :
    String × AgentState × Store :=
  match st.pending_delete with
  | none => ("There\x27s nothing to confirm. What would you like to do?", st, s)
  | some info =>
    let st' := { st with pending_delete := none }
    match info with
    | .entry eid =>
      let r := soft_delete s eid
      ((if r.2 then "Entry deleted." else "Sorry, couldn\x27t delete that entry."), st', r.1)
    | .range start stop _ =>
      let r := delete_by_date_range s user_id start stop
      ("Deleted " ++ toString r.2 ++ " entries.", st', r.1)
    | .all _ =>
      let r := delete_all s user_id
      ("All " ++ toString r.2 ++ " entries have been deleted. Fresh start!", st', r.1)

/-- The store effect of a stored pending action, one application of the
corresponding Memory Store operation. -/
def exec_pending (user_id : String) (info : PendingDelete) (s : Store) : Store :=
  match info with
  | .entry eid => (soft_delete s eid).1
  | .range start stop _ => (delete_by_date_range s user_id start stop).1
  | .all _ => (delete_all s user_id).1

/-- The outcome report of a stored pending action, as worded by the source. -/
def report_pending (user_id : String) (info : PendingDelete) (s : Store) : String :=
  match info with
  | .entry eid =>
    if (soft_delete s eid).2 then "Entry deleted." else "Sorry, couldn\x27t delete that entry."
  | .range start stop _ =>
    "Deleted " ++ toString (delete_by_date_range s user_id start stop).2 ++ " entries."
  | .all _ =>
    "All " ++ toString (delete_all s user_id).2 ++ " entries have been deleted. Fresh start!"

/-! ### Context assembler (src/memory_client.py)

Each collaborator call that the source wraps in `try/except` is passed in as
an `Except Unit α` outcome: `.error ()` models an exception raised inside
the guarded region, `.ok v` a successful reply `v`. -/

/-- One working-memory message as read by `get_conversation_context`. -/
structure MemMsg where
  role : String
  content : String
deriving Repr, DecidableEq

/-- A parsed `created_at` calendar date, as far as the `"%b %d"` formatting
reads it. -/
structure CalDate where
  month : Nat
  day : Nat
deriving Repr, DecidableEq

/-- One long-term memory record, restricted to the fields
`get_combined_context` reads.  `created_at = none` models a missing/empty
timestamp, `some none` an unparsable one, `some (some d)` one that parses to
the calendar date `d`. -/
structure LongTermMemory where
  text : String
  created_at : Option (Option CalDate)
deriving Repr, DecidableEq

/-- Month abbreviation of `strftime("%b %d")`. -/
def month_abbrev (m : Nat) : String :=
  match m with
  | 1 => "Jan" | 2 => "Feb" | 3 => "Mar" | 4 => "Apr" | 5 => "May" | 6 => "Jun"
  | 7 => "Jul" | 8 => "Aug" | 9 => "Sep" | 10 => "Oct" | 11 => "Nov" | 12 => "Dec"
  | _ => ""

/-- Zero-padded day of `strftime("%b %d")`. -/
def pad2 (n : Nat) : String :=
  if n < 10 then "0" ++ toString n else toString n

/-- The date label of one long-term line: the parsed `created_at` formatted
as `"%b %d"`, or the literal `"Recent"` when it is missing or unparsable. -/
def date_label (created_at : Option (Option CalDate)) : String :=
  match created_at with
  | none => "Recent"
  | some none => "Recent"
  | some (some d) => month_abbrev d.month ++ " " ++ pad2 d.day

/-- The snippet truncation: texts longer than 150 characters are cut to 150
and suffixed with `"..."`. -/
def truncate_snippet (text : String) : String :=
  if text.length > 150 then text.take 150 ++ "..." else text

/-- Embedding of `MemoryClient.get_conversation_context` (the part after the
client handle is obtained): on an exception inside the `try` block the
result is `""`; on success the last `max_turns * 2` messages are formatted
one per line.  (Python's `l[-0:]` is the whole list, so the embedding and
the source agree for the positive `max_turns` used at every call site.) -/
def get_conversation_context (outcome : Except Unit (List MemMsg)) (max_turns : Nat) :
    String :=
  match outcome with
  | .error _ => ""
  | .ok msgs =>
    if msgs.isEmpty then ""
    else
      String.intercalate "\n"
        ((last_n (max_turns * 2) msgs).map
          (fun m => (if m.role == "user" then "User" else "Assistant") ++ ": " ++ m.content))

/-- Embedding of `MemoryClient.search_long_term_memory` (the guarded part):
on an exception the result is the empty list, otherwise the records the
search service returned. -/
def search_long_term_memory (outcome : Except Unit (List LongTermMemory)) :
    List LongTermMemory :=
  match outcome with
  | .error _ => []
  | .ok ms => ms

/-- The long-term half of the combined context: one `"- {date}: {snippet}"`
line per record (`"\n".join` of no lines is `""`, as in the source's
`if long_term_lines else ""`). -/
def format_long_term (ms : List LongTermMemory) : String :=
  String.intercalate "\n"
    (ms.map (fun m => "- " ++ date_label m.created_at ++ ": " ++ truncate_snippet m.text))

/-- Embedding of `MemoryClient.get_combined_context`.  The environment
offers three collaborator outcomes — the working-memory fetch, the long-term
search, and a calendar fetch (`CalendarClient.get_calendar_context`) — the
last being what claim C6 asserts the assembler consults.  The source awaits
`get_conversation_context` and then `search_long_term_memory`, and returns
the pair of formatted results. -/
def get_combined_context (conv : Except Unit (List MemMsg))
    (search : Except Unit (List LongTermMemory)) (_calendar : Except Unit String) :
    String × String :=
  let conversation_context := get_conversation_context conv 5
  let memories := search_long_term_memory search
  let long_term_context := format_long_term memories
  (conversation_context, long_term_context)

/-- Follows the spec's words (§4.3), for comparison with the source
definition above: the assembler "concurrently invokes up to three
independent fetch operations — conversation-history fetch, long-term-memory
similarity search, and calendar-context fetch — and returns all three
results (each defaulting to an empty value on failure)".  Concurrency has no
observable effect on the returned values; this captures the spec's
functional contract that all three fetch results are returned, failures
replaced by empty defaults. -/
def get_combined_context_spec (conv : Except Unit (List MemMsg))
    (search : Except Unit (List LongTermMemory)) (calendar : Except Unit String) :
    String × String × String :=
  (get_conversation_context conv 5,
   format_long_term (search_long_term_memory search),
   match calendar with
   | .error _ => ""
   | .ok c => c)

/-! ### Intent classifier (src/intent_detector.py)

The regular-expression rule layer (`_rule_based_detect`) is modelled by its
outcome `rule_result`, since claim C8 conditions on "no rule matches"
(`rule_result = none`).  The LLM chat-completion call of `_llm_detect` is
modelled by its outcome: `.error ()` an exception (network failure, bad
response shape), `.ok raw` the model's reply text.  The wall clock used by
the date-entity extraction is passed as `now`, in seconds. -/

/-- The `Intent` enumeration. -/
inductive Intent where
  | log_entry
  | ask_journal
  | summarize
  | delete_entry
  | delete_range
  | delete_all
  | confirm_delete
  | help
  | unknown
deriving Repr, DecidableEq

/-- The entity mapping attached to an `IntentResult`, restricted to the
shapes the modelled paths produce. -/
inductive Entities where
  | empty
  | query (text : String)
  | content (text : String)
  | date_range (start stop : Int)
deriving Repr, DecidableEq

/-- `IntentResult`. -/
structure IntentResult where
  intent : Intent
  confidence : ℚ
  entities : Entities
  original_text : String
deriving Repr, DecidableEq

/-- Substring test, embedding Python's `pat in text`. -/
def contains_substr (text pat : String) : Bool :=
  (text.splitOn pat).length != 1

/-- Seconds per day, for the date-entity arithmetic. -/
def seconds_per_day : Int := 86400

/-- Midnight before a clock reading (`now.replace(hour=0, minute=0,
second=0)`, at second granularity). -/
def midnight (t : Int) : Int := t - t % seconds_per_day

/-- Embedding of `IntentDetector._extract_date_range` at second granularity:
the recognized phrases and their windows.  (`_extract_time_range` is the
same function in the source.) -/
def extract_date_range (now : Int) (text : String) : Int × Int :=
  let text_lower := text.toLower
  if contains_substr text_lower "today" then
    (midnight now, now)
  else if contains_substr text_lower "yesterday" then
    (midnight (now - seconds_per_day), midnight (now - seconds_per_day) + 86399)
  else if contains_substr text_lower "last week" || contains_substr text_lower "this week" then
    (now - 7 * seconds_per_day, now)
  else if contains_substr text_lower "last month" || contains_substr text_lower "this month" then
    (now - 30 * seconds_per_day, now)
  else
    (now - 7 * seconds_per_day, now)

/-- The deterministic fallback of `_llm_detect`'s `except` branch: a
question mark selects ASK_JOURNAL, anything else LOG_ENTRY, at
confidence 0.4. -/
def llm_fallback (text : String) : IntentResult :=
  if text.contains '?' then ⟨.ask_journal, 2 / 5, .query text, text⟩
  else ⟨.log_entry, 2 / 5, .content text, text⟩

/-- The `intent_map` lookup of `_llm_detect`, applied to the trimmed,
upper-cased reply; unmapped replies give UNKNOWN. -/
def intent_of_llm_output (raw : String) : Intent :=
  let s := raw.trim.toUpper
  if s == "LOG_ENTRY" then .log_entry
  else if s == "ASK_JOURNAL" then .ask_journal
  else if s == "SUMMARIZE" then .summarize
  else if s == "DELETE_ENTRY" then .delete_entry
  else if s == "DELETE_RANGE" then .delete_range
  else if s == "DELETE_ALL" then .delete_all
  else if s == "HELP" then .help
  else .unknown

/-- Embedding of `IntentDetector._llm_detect`. -/
def llm_detect (now : Int) (outcome : Except Unit String) (text : String) : IntentResult :=
  match outcome with
  | .error _ => llm_fallback text
  | .ok raw =>
    let intent := intent_of_llm_output raw
    let entities : Entities :=
      match intent with
      | .summarize =>
        let r := extract_date_range now text
        .date_range r.1 r.2
      | .ask_journal => .query text
      | .log_entry => .content text
      | .delete_range =>
        let r := extract_date_range now text
        .date_range r.1 r.2
      | _ => .empty
    ⟨intent, 4 / 5, entities, text⟩

/-- The interrogative words of `detect`'s default branch
(`text.lower().startswith(("what", "when", "how", "why", "where", "who",
"did", "have", "do"))`). -/
def question_starters : List String :=
  ["what", "when", "how", "why", "where", "who", "did", "have", "do"]

/-- The default branch's question test: a question mark anywhere, or an
interrogative first word. -/
def is_question_like (text : String) : Bool :=
  text.contains '?' || question_starters.any (fun w => text.toLower.startsWith w)

/-- Embedding of `IntentDetector.detect`: rule-based result if any rule
matched, else the LLM path when `use_llm` is set (False in the source's
constructor default), else the deterministic 0.5-confidence default. -/
def detect (use_llm : Bool) (rule_result : Option IntentResult) (now : Int)
    (llm_outcome : Except Unit String) (text : String) : IntentResult :=
  match rule_result with
  | some r => r
  | none =>
    if use_llm then llm_detect now llm_outcome text
    else if is_question_like text then ⟨.ask_journal, 1 / 2, .query text, text⟩
    else ⟨.log_entry, 1 / 2, .content text, text⟩

/-! ### Verification helpers -/

/-- Marking every id of a list deleted at once; the cumulative effect of the
delete loops. -/
def mark_deleted_many (ids : List String) (e : JournalEntry) : JournalEntry :=
  if e.id ∈ ids then { e with deleted := true } else e

/-! ## Store lemmas -/

theorem mark_deleted_id (entry_id : String) (e : JournalEntry) :
    (mark_deleted entry_id e).id = e.id := by
  unfold mark_deleted
  split <;> rfl

theorem mark_deleted_user (entry_id : String) (e : JournalEntry) :
    (mark_deleted entry_id e).user_id = e.user_id := by
  unfold mark_deleted
  split <;> rfl

theorem mark_deleted_ts (entry_id : String) (e : JournalEntry) :
    (mark_deleted entry_id e).ts = e.ts := by
  unfold mark_deleted
  split <;> rfl

theorem any_id_map_mark (s : Store) (a b : String) :
    ((s.map (mark_deleted a)).any (fun e => e.id == b)) = s.any (fun e => e.id == b) := by
  induction s with
  | nil => rfl
  | cons e t ih => simp [List.any_cons, mark_deleted_id, ih]

theorem soft_delete_fst (s : Store) (entry_id : String) :
    (soft_delete s entry_id).1 = s.map (mark_deleted entry_id) := by
  unfold soft_delete
  cases h : s.any (fun e => e.id == entry_id) with
  | true => simp
  | false =>
    simp only [Bool.false_eq_true, if_false]
    have hall : ∀ e ∈ s, mark_deleted entry_id e = e := by
      intro e he
      have := List.any_eq_false.mp h e he
      unfold mark_deleted
      simp [this]
    calc s = s.map id := by rw [List.map_id]
    _ = s.map (mark_deleted entry_id) := (List.map_congr_left hall).symm

theorem soft_delete_snd (s : Store) (entry_id : String) :
    (soft_delete s entry_id).2 = s.any (fun e => e.id == entry_id) := by
  unfold soft_delete
  cases h : s.any (fun e => e.id == entry_id) <;> simp

theorem mark_deleted_idem (entry_id : String) (e : JournalEntry) :
    mark_deleted entry_id (mark_deleted entry_id e) = mark_deleted entry_id e := by
  unfold mark_deleted
  by_cases h : (e.id == entry_id) = true
  · simp [h]
  · simp [h]

/-! ## Claim C1 -/

/-- Claim C1, counterexample to the claim as stated: in a store holding a
single existing, non-deleted entry `e1`, calling `soft_delete "e1"` twice
returns `true` both times — not `true` then `false` as the claim requires:
the source's existence check (`client.exists(key)`) ignores the `deleted`
flag, and soft deletion does not remove the key. -/
theorem C1_counterexample :
    (soft_delete [⟨"e1", "u", 5, "note", false⟩] "e1").2 = true ∧
    (soft_delete (soft_delete [⟨"e1", "u", 5, "note", false⟩] "e1").1 "e1").2 = true := by
  constructor
  · decide
  · decide

/-- Claim C1 (amended): `soft_delete(id)` never errors and returns `true`
exactly when an entry with that id exists, whether or not it is already
deleted; on a nonexistent id it returns `false` and leaves the store
unchanged.  Hence calling it twice on an existing entry returns `true` both
times, and the second call leaves both the store and the returned flag
exactly as after the first call (idempotence of effect, not of the returned
flag). -/
theorem C1_soft_delete_amended (s : Store) (entry_id : String) :
    (soft_delete s entry_id).2 = entry_key_exists s entry_id ∧
    soft_delete (soft_delete s entry_id).1 entry_id
      = ((soft_delete s entry_id).1, (soft_delete s entry_id).2) := by
  refine ⟨soft_delete_snd s entry_id, ?_⟩
  have hfst : (soft_delete (soft_delete s entry_id).1 entry_id).1 = (soft_delete s entry_id).1 := by
    simp only [soft_delete_fst]
    rw [List.map_map]
    exact List.map_congr_left (fun e _ => mark_deleted_idem entry_id e)
  have hsnd : (soft_delete (soft_delete s entry_id).1 entry_id).2 = (soft_delete s entry_id).2 := by
    rw [soft_delete_snd, soft_delete_fst, any_id_map_mark, soft_delete_snd]
  exact Prod.ext hfst hsnd

/-! ## Delete-loop lemmas -/

theorem mark_deleted_many_nil (e : JournalEntry) : mark_deleted_many [] e = e := by
  simp [mark_deleted_many]

theorem mark_deleted_many_cons (i : String) (rest : List String) (e : JournalEntry) :
    mark_deleted_many rest (mark_deleted i e) = mark_deleted_many (i :: rest) e := by
  unfold mark_deleted_many mark_deleted
  by_cases h1 : (e.id == i) = true
  · have h1' : e.id = i := by simpa using h1
    by_cases h2 : e.id ∈ rest <;> simp [h1, h1', h2, List.mem_cons]
  · have h1' : ¬e.id = i := by simpa using h1
    by_cases h2 : e.id ∈ rest <;> simp [h1, h1', h2, List.mem_cons]

theorem apply_soft_deletes_fst (ids : List String) (s : Store) :
    (apply_soft_deletes s ids).1 = s.map (mark_deleted_many ids) := by
  induction ids generalizing s with
  | nil =>
    simp only [apply_soft_deletes]
    calc s = s.map id := by rw [List.map_id]
    _ = s.map (mark_deleted_many []) :=
      (List.map_congr_left (fun e _ => mark_deleted_many_nil e)).symm
  | cons i rest ih =>
    simp only [apply_soft_deletes]
    rw [ih, soft_delete_fst, List.map_map]
    exact List.map_congr_left (fun e _ => mark_deleted_many_cons i rest e)

theorem apply_soft_deletes_snd (ids : List String) (s : Store)
    (h : ∀ i ∈ ids, s.any (fun e => e.id == i) = true) :
    (apply_soft_deletes s ids).2 = ids.length := by
  induction ids generalizing s with
  | nil => rfl
  | cons i rest ih =>
    have hi : s.any (fun e => e.id == i) = true := h i (List.mem_cons_self i rest)
    simp only [apply_soft_deletes, soft_delete_snd, hi, if_true]
    have hrest : ∀ j ∈ rest, ((soft_delete s i).1.any (fun e => e.id == j)) = true := by
      intro j hj
      rw [soft_delete_fst, any_id_map_mark]
      exact h j (List.mem_cons_of_mem i hj)
    rw [ih (soft_delete s i).1 hrest]
    simp [Nat.add_comm]

theorem mem_of_mem_zrangebyscore (s : Store) (u : String) (a b : ℚ) (i : String)
    (hi : i ∈ zrangebyscore_ids s u a b) :
    ∃ e ∈ s, e.id = i ∧ e.user_id = u ∧ a ≤ e.ts ∧ e.ts ≤ b := by
  unfold zrangebyscore_ids timeline at hi
  obtain ⟨e, he, rfl⟩ := List.mem_map.mp hi
  obtain ⟨he1, he2⟩ := List.mem_filter.mp he
  have he3 := (List.mem_insertionSort _).mp he1
  obtain ⟨he4, he5⟩ := List.mem_filter.mp he3
  refine ⟨e, he4, rfl, by simpa using he5, ?_, ?_⟩
  · have := (Bool.and_eq_true _ _).mp he2
    simpa using this.1
  · have := (Bool.and_eq_true _ _).mp he2
    simpa using this.2

theorem mem_of_mem_zrange (s : Store) (u : String) (i : String)
    (hi : i ∈ zrange_ids s u) :
    ∃ e ∈ s, e.id = i ∧ e.user_id = u := by
  unfold zrange_ids timeline at hi
  obtain ⟨e, he, rfl⟩ := List.mem_map.mp hi
  have he3 := (List.mem_insertionSort _).mp he
  obtain ⟨he4, he5⟩ := List.mem_filter.mp he3
  exact ⟨e, he4, rfl, by simpa using he5⟩

theorem zrangebyscore_length (s : Store) (u : String) (a b : ℚ) :
    (zrangebyscore_ids s u a b).length
      = (s.filter (fun e => e.user_id == u && (decide (a ≤ e.ts) && decide (e.ts ≤ b)))).length := by
  unfold zrangebyscore_ids timeline
  rw [List.length_map]
  have hperm := (List.perm_insertionSort (fun a b => a.ts ≤ b.ts)
      (s.filter (fun e => e.user_id == u))).filter
    (fun e => decide (a ≤ e.ts) && decide (e.ts ≤ b))
  rw [hperm.length_eq, List.filter_filter]
  exact congrArg List.length (List.filter_congr (fun e _ => Bool.and_comm _ _))

theorem zrange_length (s : Store) (u : String) :
    (zrange_ids s u).length = (s.filter (fun e => e.user_id == u)).length := by
  unfold zrange_ids timeline
  rw [List.length_map]
  exact (List.perm_insertionSort (fun a b => a.ts ≤ b.ts)
    (s.filter (fun e => e.user_id == u))).length_eq

theorem mem_zrangebyscore_iff (s : Store) (u : String) (a b : ℚ) (e : JournalEntry)
    (hwf : StoreWF s) (he : e ∈ s) :
    e.id ∈ zrangebyscore_ids s u a b
      ↔ (e.user_id == u && (decide (a ≤ e.ts) && decide (e.ts ≤ b))) = true := by
  constructor
  · intro h
    obtain ⟨e', he', hid, hu, h1, h2⟩ := mem_of_mem_zrangebyscore s u a b e.id h
    obtain rfl : e' = e := List.inj_on_of_nodup_map hwf he' he hid
    simp [hu, h1, h2]
  · intro h
    have hu : (e.user_id == u) = true := ((Bool.and_eq_true _ _).mp h).1
    have hr := ((Bool.and_eq_true _ _).mp h).2
    unfold zrangebyscore_ids timeline
    refine List.mem_map.mpr ⟨e, ?_, rfl⟩
    refine List.mem_filter.mpr ⟨?_, hr⟩
    exact (List.mem_insertionSort _).mpr (List.mem_filter.mpr ⟨he, hu⟩)

theorem mem_zrange_iff (s : Store) (u : String) (e : JournalEntry)
    (hwf : StoreWF s) (he : e ∈ s) :
    e.id ∈ zrange_ids s u ↔ (e.user_id == u) = true := by
  constructor
  · intro h
    obtain ⟨e', he', hid, hu⟩ := mem_of_mem_zrange s u e.id h
    obtain rfl : e' = e := List.inj_on_of_nodup_map hwf he' he hid
    simp [hu]
  · intro hu
    unfold zrange_ids timeline
    refine List.mem_map.mpr ⟨e, ?_, rfl⟩
    exact (List.mem_insertionSort _).mpr (List.mem_filter.mpr ⟨he, hu⟩)

/-! ## Claim C2 -/

/-- Claim C2, counterexample to the claim as stated: in a store whose single
entry for user `u` is already deleted, `delete_all` and
`delete_by_date_range` both return 1, not the 0 the claim requires: the
already-deleted entry is still a timeline member and still an existing key,
so its `soft_delete` call returns `True` and is counted. -/
theorem C2_counterexample :
    (delete_all [⟨"e1", "u", 5, "t", true⟩] "u").2 = 1 ∧
    (delete_by_date_range [⟨"e1", "u", 5, "t", true⟩] "u" 0 10).2 = 1 := by
  exact ⟨by decide, by decide⟩

/-- Claim C2 (amended): in a well-formed store, `delete_by_date_range`
soft-deletes exactly the user's entries with creation time in
`[start, end]` inclusive (marking already-deleted ones again, a no-op) and
returns the number of the user's stored entries in that range — counting
already-deleted entries, not only the non-deleted ones affected; and
`delete_all` does the same over all of the user's entries.  Entries of other
users, or outside the range, are untouched. -/
theorem C2_delete_counts_amended (s : Store) (u : String) (a b : ℚ) (hwf : StoreWF s) :
    (delete_by_date_range s u a b).2
      = (s.filter (fun e => e.user_id == u && (decide (a ≤ e.ts) && decide (e.ts ≤ b)))).length ∧
    (delete_by_date_range s u a b).1
      = s.map (fun e =>
          if e.user_id == u && (decide (a ≤ e.ts) && decide (e.ts ≤ b))
          then { e with deleted := true } else e) ∧
    (delete_all s u).2 = (s.filter (fun e => e.user_id == u)).length ∧
    (delete_all s u).1
      = s.map (fun e => if e.user_id == u then { e with deleted := true } else e) := by
  have hex : ∀ i ∈ zrangebyscore_ids s u a b, s.any (fun e => e.id == i) = true := by
    intro i hi
    obtain ⟨e, he, hid, -⟩ := mem_of_mem_zrangebyscore s u a b i hi
    exact List.any_eq_true.mpr ⟨e, he, by simp [hid]⟩
  have hex2 : ∀ i ∈ zrange_ids s u, s.any (fun e => e.id == i) = true := by
    intro i hi
    obtain ⟨e, he, hid, -⟩ := mem_of_mem_zrange s u i hi
    exact List.any_eq_true.mpr ⟨e, he, by simp [hid]⟩
  refine ⟨?_, ?_, ?_, ?_⟩
  · rw [delete_by_date_range, apply_soft_deletes_snd _ _ hex, zrangebyscore_length]
  · rw [delete_by_date_range, apply_soft_deletes_fst]
    refine List.map_congr_left ?_
    intro e he
    unfold mark_deleted_many
    by_cases hm : e.id ∈ zrangebyscore_ids s u a b
    · rw [if_pos hm, if_pos ((mem_zrangebyscore_iff s u a b e hwf he).mp hm)]
    · rw [if_neg hm, if_neg (fun hp => hm ((mem_zrangebyscore_iff s u a b e hwf he).mpr hp))]
  · rw [delete_all, apply_soft_deletes_snd _ _ hex2, zrange_length]
  · rw [delete_all, apply_soft_deletes_fst]
    refine List.map_congr_left ?_
    intro e he
    unfold mark_deleted_many
    by_cases hm : e.id ∈ zrange_ids s u
    · rw [if_pos hm, if_pos ((mem_zrange_iff s u e hwf he).mp hm)]
    · rw [if_neg hm, if_neg (fun hp => hm ((mem_zrange_iff s u e hwf he).mpr hp))]

/-- Claim C2, witness: the amended theorem applied to a concrete two-entry
store, one entry already deleted — both entries are counted. -/
theorem C2_witness :
    StoreWF [⟨"e1", "u", 5, "t", false⟩, ⟨"e2", "u", 20, "t2", true⟩] ∧
    (delete_all [⟨"e1", "u", 5, "t", false⟩, ⟨"e2", "u", 20, "t2", true⟩] "u").2 = 2 :=
  ⟨by unfold StoreWF; decide,
   by
    rw [(C2_delete_counts_amended
      [⟨"e1", "u", 5, "t", false⟩, ⟨"e2", "u", 20, "t2", true⟩] "u" 0 10
      (by unfold StoreWF; decide)).2.2.1]
    decide⟩

theorem raw_get_map_mark (s : Store) (i : String) :
    raw_get (s.map (mark_deleted i)) i = Option.map (mark_deleted i) (raw_get s i) := by
  induction s with
  | nil => rfl
  | cons e t ih =>
    unfold raw_get at *
    by_cases h : (e.id == i) = true
    · simp [List.find?_cons, mark_deleted_id, h]
    · simp [List.find?_cons, mark_deleted_id, h, ih]

/-! ## Claim C9 -/

theorem get_entry_props (s : Store) (i : String) (e : JournalEntry)
    (h : get_entry s i = some e) : e ∈ s ∧ e.deleted = false := by
  unfold get_entry at h
  cases hr : raw_get s i with
  | none => rw [hr] at h; simp at h
  | some x =>
    rw [hr] at h
    by_cases hx : x.deleted = true
    · simp [hx] at h
    · simp [hx] at h
      subst h
      have hfind : List.find? (fun y => y.id == i) s = some x := hr
      exact ⟨List.mem_of_find?_eq_some hfind, by simpa using hx⟩

/-- Claim C9: once an entry is soft-deleted, it is excluded from every read
path of the store — `get_entry` returns `None`, `search_similar` never
returns it, the date-range listing omits it, and `get_entry_count` does not
count it — while the record itself remains stored under its id (the raw
keyspace read still returns it, with the `deleted` flag set), so it stays
addressable for audit. -/
theorem C9_soft_delete_excluded (s : Store) (eid : String) (e : JournalEntry)
    (h : raw_get s eid = some e) :
    get_entry (soft_delete s eid).1 eid = none ∧
    raw_get (soft_delete s eid).1 eid = some { e with deleted := true } ∧
    (∀ (u : String) (d : JournalEntry → ℚ) (now : ℚ) (k : Nat) (boost : ℚ)
        (p : JournalEntry × ℚ),
      p ∈ search_similar (soft_delete s eid).1 u d now k boost → p.1.id ≠ eid) ∧
    (∀ (u : String) (a b : ℚ) (e' : JournalEntry),
      e' ∈ get_entries_by_date_range (soft_delete s eid).1 u a b → e'.id ≠ eid) ∧
    (∀ u : String,
      get_entry_count (soft_delete s eid).1 u
        = ((zrange_ids (soft_delete s eid).1 u).filter
            (fun i => !(i == eid) &&
              (match get_entry (soft_delete s eid).1 i with
               | some e2 => !e2.deleted
               | none => false))).length) := by
  have hfind : List.find? (fun x => x.id == eid) s = some e := h
  have hpe : (e.id == eid) = true := by simpa using List.find?_some hfind
  have hmem : e ∈ s := List.mem_of_find?_eq_some hfind
  have hfst : (soft_delete s eid).1 = s.map (mark_deleted eid) := soft_delete_fst s eid
  have hraw : raw_get (soft_delete s eid).1 eid = some { e with deleted := true } := by
    rw [hfst, raw_get_map_mark, h]
    simp [mark_deleted, hpe]
  have hget : get_entry (soft_delete s eid).1 eid = none := by
    unfold get_entry
    rw [hraw]
    simp
  have hdel : ∀ c ∈ (soft_delete s eid).1, c.id = eid → c.deleted = true := by
    intro c hc hcid
    rw [hfst] at hc
    obtain ⟨e0, he0, rfl⟩ := List.mem_map.mp hc
    rw [mark_deleted_id] at hcid
    unfold mark_deleted
    rw [if_pos (by simpa using hcid)]
  refine ⟨hget, hraw, ?_, ?_, ?_⟩
  · intro u d now k boost p hp hpid
    have hp1 := List.mem_of_mem_take hp
    have hp2 := (List.mem_insertionSort _).mp hp1
    obtain ⟨c, hc, hpc⟩ := List.mem_map.mp hp2
    have hc1 := List.mem_of_mem_take hc
    have hc2 := (List.mem_insertionSort _).mp hc1
    obtain ⟨hcs, hcp⟩ := List.mem_filter.mp hc2
    have hcdel : c.deleted = false := by
      have := ((Bool.and_eq_true _ _).mp hcp).2
      simpa using this
    have hcid : c.id = eid := by rw [← hpc] at hpid; exact hpid
    rw [hdel c hcs hcid] at hcdel
    exact Bool.true_eq_false.mp hcdel
  · intro u a b e' he' hid
    obtain ⟨i, hi, hfi⟩ := List.mem_filterMap.mp he'
    have hsome : get_entry (soft_delete s eid).1 i = some e' := by
      cases hg : get_entry (soft_delete s eid).1 i with
      | none => rw [hg] at hfi; simp at hfi
      | some x =>
        rw [hg] at hfi
        by_cases hx : x.deleted = true
        · simp [hx] at hfi
        · simp [hx] at hfi
          simp [hfi]
    obtain ⟨hmem', hdel'⟩ := get_entry_props _ _ _ hsome
    rw [hdel e' hmem' hid] at hdel'
    exact Bool.true_eq_false.mp hdel'
  · intro u
    unfold get_entry_count
    congr 1
    refine List.filter_congr ?_
    intro i hi
    by_cases hie : (i == eid) = true
    · have : i = eid := by simpa using hie
      subst this
      rw [hget]
      simp [hie]
    · simp [hie]

/-- Claim C9, witness: a concrete store; after soft-deleting `e1`,
`get_entry` no longer sees it but the raw record survives with the flag set. -/
theorem C9_witness :
    raw_get [(⟨"e1", "u", 5, "t", false⟩ : JournalEntry)] "e1"
      = some ⟨"e1", "u", 5, "t", false⟩ ∧
    get_entry (soft_delete [(⟨"e1", "u", 5, "t", false⟩ : JournalEntry)] "e1").1 "e1" = none ∧
    raw_get (soft_delete [(⟨"e1", "u", 5, "t", false⟩ : JournalEntry)] "e1").1 "e1"
      = some ⟨"e1", "u", 5, "t", true⟩ :=
  ⟨by decide,
   (C9_soft_delete_excluded [⟨"e1", "u", 5, "t", false⟩] "e1" ⟨"e1", "u", 5, "t", false⟩
     (by decide)).1,
   (C9_soft_delete_excluded [⟨"e1", "u", 5, "t", false⟩] "e1" ⟨"e1", "u", 5, "t", false⟩
     (by decide)).2.1⟩

/-! ## History lemmas -/

theorem last_n_append_last_n {α : Type} (n : Nat) (l s : List α) :
    last_n n (last_n n l ++ s) = last_n n (l ++ s) := by
  unfold last_n
  rcases le_or_lt l.length n with hle | hlt
  · rw [Nat.sub_eq_zero_of_le hle, List.drop_zero]
  · have hdl : (l.drop (l.length - n)).length = n := by
      rw [List.length_drop]; omega
    rcases le_or_lt s.length n with hsle | hslt
    · rw [List.length_append, hdl, List.length_append]
      have h1 : n + s.length - n = s.length := by omega
      rw [h1]
      rw [List.drop_append_of_le_length (by rw [hdl]; exact hsle)]
      rw [List.drop_drop]
      have h2 : l.length + s.length - n ≤ l.length := by omega
      rw [List.drop_append_of_le_length h2]
      congr 2
      omega
    · rw [List.length_append, hdl, List.length_append]
      rw [show n + s.length - n = (l.drop (l.length - n)).length + (s.length - n) from by
        rw [hdl]; omega]
      rw [List.drop_append]
      rw [show l.length + s.length - n = l.length + (s.length - n) from by omega]
      rw [List.drop_append]

theorem record_turn_eq (h : List TurnMsg) (u r : String) :
    record_turn h u r = last_n 20 (h ++ [⟨"user", u⟩, ⟨"assistant", r⟩]) := by
  unfold record_turn last_n
  by_cases hl : (h ++ [(⟨"user", u⟩ : TurnMsg), ⟨"assistant", r⟩]).length > 20
  · rw [if_pos hl]
  · rw [if_neg hl]
    rw [Nat.sub_eq_zero_of_le (by omega), List.drop_zero]

theorem run_turns_eq (turns : List (String × String)) (L : List TurnMsg) :
    run_turns turns (last_n 20 L) = last_n 20 (L ++ full_log turns) := by
  induction turns generalizing L with
  | nil => simp [run_turns, full_log]
  | cons p ts ih =>
    unfold run_turns full_log at *
    simp only [List.foldl_cons, List.flatMap_cons]
    rw [record_turn_eq, last_n_append_last_n, ← List.append_assoc]
    exact ih _

theorem full_log_length (turns : List (String × String)) :
    (full_log turns).length = 2 * turns.length := by
  induction turns with
  | nil => rfl
  | cons p ts ih =>
    unfold full_log at *
    simp only [List.flatMap_cons, List.length_append, List.length_cons, ih]
    simp [Nat.mul_add, Nat.mul_succ]
    omega

/-! ## Claim C4 -/

/-- Claim C4: the conversation history is the most recent 20 turn entries of
the session in order — each `process_input` call appends the user turn then
the assistant turn and trims to the last 20 — and after 25 calls in one
session (50 appended turn entries) its length is exactly 20 and it equals
the last 20 entries of the full session log. -/
theorem C4_bounded_history (turns : List (String × String)) (h25 : turns.length = 25) :
    run_turns turns [] = last_n 20 (full_log turns) ∧
    (run_turns turns []).length = 20 ∧
    (full_log turns).length = 50 := by
  have hlen : (full_log turns).length = 50 := by rw [full_log_length, h25]
  have hrun : run_turns turns [] = last_n 20 (full_log turns) := by
    have h0 : last_n 20 ([] : List TurnMsg) = [] := rfl
    have := run_turns_eq turns []
    rw [h0, List.nil_append] at this
    exact this
  refine ⟨hrun, ?_, hlen⟩
  rw [hrun]
  unfold last_n
  rw [List.length_drop, hlen]

/-- Claim C4, witness: a concrete 25-call session ends with history length
exactly 20. -/
theorem C4_witness :
    (List.replicate 25 (("hi", "ok") : String × String)).length = 25 ∧
    (run_turns (List.replicate 25 ("hi", "ok")) []).length = 20 :=
  ⟨by decide, (C4_bounded_history (List.replicate 25 ("hi", "ok")) (by decide)).2.1⟩

/-! ## Claim C5 -/

/-- Claim C5: on a CONFIRM_DELETE turn with no pending action the agent
answers "nothing to confirm" and mutates neither its state nor the store;
with a pending action it clears it, executes exactly the stored action
through the store once, and reports the outcome — and a following
CONFIRM_DELETE turn (no new pending action) gets the "nothing to confirm"
answer with, again, no mutation. -/
theorem C5_confirm_delete (user_id : String) (st : AgentState) (s : Store) :
    (st.pending_delete = none →
      handle_confirm_delete user_id st s
        = ("There\x27s nothing to confirm. What would you like to do?", st, s)) ∧
    (∀ info : PendingDelete, st.pending_delete = some info →
      handle_confirm_delete user_id st s
        = (report_pending user_id info s, { st with pending_delete := none },
           exec_pending user_id info s) ∧
      handle_confirm_delete user_id { st with pending_delete := none }
          (exec_pending user_id info s)
        = ("There\x27s nothing to confirm. What would you like to do?",
           { st with pending_delete := none }, exec_pending user_id info s)) := by
  constructor
  · intro h
    unfold handle_confirm_delete
    rw [h]
  · intro info h
    constructor
    · unfold handle_confirm_delete
      rw [h]
      cases info <;> rfl
    · rfl

/-- Claim C5, witness: a concrete confirm turn executes the stored
single-entry delete and a second confirm turn finds nothing to confirm. -/
theorem C5_witness :
    handle_confirm_delete "u" ⟨.log, some (.entry "e1"), [], []⟩ [⟨"e1", "u", 5, "t", false⟩]
      = ("Entry deleted.", ⟨.log, none, [], []⟩, [⟨"e1", "u", 5, "t", true⟩]) ∧
    handle_confirm_delete "u" ⟨.log, none, [], []⟩ [⟨"e1", "u", 5, "t", true⟩]
      = ("There\x27s nothing to confirm. What would you like to do?",
         ⟨.log, none, [], []⟩, [⟨"e1", "u", 5, "t", true⟩]) := by
  constructor
  · rw [((C5_confirm_delete "u" ⟨.log, some (.entry "e1"), [], []⟩
      [⟨"e1", "u", 5, "t", false⟩]).2 (.entry "e1") rfl).1]
    decide
  · exact (C5_confirm_delete "u" ⟨.log, none, [], []⟩ [⟨"e1", "u", 5, "t", true⟩]).1 rfl

/-! ## Claim C10 -/

/-- Claim C10: a CONFIRM_DELETE turn that finds a pending action always
consumes it — `pending_delete` is `none` in the resulting state for every
kind of pending action and every store — including when the underlying
store operation reports failure (a stored entry id that no longer exists):
the response is the failure message, the store is unchanged, and the failed
action cannot be re-confirmed (the next confirm turn finds nothing). -/
theorem C10_pending_consumed (user_id : String) (st : AgentState) (s : Store)
    (info : PendingDelete) (h : st.pending_delete = some info) :
    ((handle_confirm_delete user_id st s).2.1).pending_delete = none ∧
    (∀ eid, info = .entry eid → entry_key_exists s eid = false →
      (handle_confirm_delete user_id st s).1 = "Sorry, couldn\x27t delete that entry." ∧
      (handle_confirm_delete user_id st s).2.2 = s ∧
      handle_confirm_delete user_id (handle_confirm_delete user_id st s).2.1
          (handle_confirm_delete user_id st s).2.2
        = ("There\x27s nothing to confirm. What would you like to do?",
           (handle_confirm_delete user_id st s).2.1,
           (handle_confirm_delete user_id st s).2.2)) := by
  constructor
  · unfold handle_confirm_delete
    rw [h]
    cases info <;> rfl
  · intro eid hinfo hex
    subst hinfo
    have hsd : soft_delete s eid = (s, false) := by
      unfold soft_delete
      unfold entry_key_exists at hex
      rw [hex]
      simp
    refine ⟨?_, ?_, ?_⟩
    · unfold handle_confirm_delete
      rw [h]
      simp [hsd]
    · unfold handle_confirm_delete
      rw [h]
      simp [hsd]
    · unfold handle_confirm_delete
      rw [h]

/-- Claim C10, witness: confirming a pending delete of a nonexistent entry
id still clears the pending action, reports failure, and cannot be
re-confirmed. -/
theorem C10_witness :
    ((handle_confirm_delete "u" ⟨.log, some (.entry "zz"), [], []⟩
        [⟨"e1", "u", 5, "t", false⟩]).2.1).pending_delete = none ∧
    (handle_confirm_delete "u" ⟨.log, some (.entry "zz"), [], []⟩
        [⟨"e1", "u", 5, "t", false⟩]).1 = "Sorry, couldn\x27t delete that entry." ∧
    (handle_confirm_delete "u" ⟨.log, some (.entry "zz"), [], []⟩
        [⟨"e1", "u", 5, "t", false⟩]).2.2 = [⟨"e1", "u", 5, "t", false⟩] :=
  ⟨(C10_pending_consumed "u" ⟨.log, some (.entry "zz"), [], []⟩
      [⟨"e1", "u", 5, "t", false⟩] (.entry "zz") rfl).1,
   ((C10_pending_consumed "u" ⟨.log, some (.entry "zz"), [], []⟩
      [⟨"e1", "u", 5, "t", false⟩] (.entry "zz") rfl).2 "zz" rfl (by decide)).1,
   ((C10_pending_consumed "u" ⟨.log, some (.entry "zz"), [], []⟩
      [⟨"e1", "u", 5, "t", false⟩] (.entry "zz") rfl).2 "zz" rfl (by decide)).2.1⟩

/-! ## Claim C6 -/

/-- Claim C6, counterexample to the claim as stated: the source
`get_combined_context` never consults the calendar fetch — two environments
that differ only in the calendar outcome (a successful fetch of
"Meeting at 3pm" versus an exception) produce identical results — while an
assembler meeting the spec's contract (`get_combined_context_spec`, which
returns all three fetch results) distinguishes them.  The source performs
two fetches, not three, so the claim's "invokes ... the calendar-context
fetch ... and returns all results" is false of the code. -/
theorem C6_counterexample :
    get_combined_context (.ok [⟨"user", "hi"⟩]) (.ok []) (.ok "Meeting at 3pm")
      = get_combined_context (.ok [⟨"user", "hi"⟩]) (.ok []) (.error ()) ∧
    get_combined_context_spec (.ok [⟨"user", "hi"⟩]) (.ok []) (.ok "Meeting at 3pm")
      ≠ get_combined_context_spec (.ok [⟨"user", "hi"⟩]) (.ok []) (.error ()) := by
  constructor
  · rfl
  · decide

/-- Claim C6 (amended): `get_combined_context` invokes only the
conversation-history fetch and the long-term-memory search (sequentially;
there is no calendar fetch) and returns the pair of their formatted results;
an exception inside either guarded fetch yields that fetch's empty default
("" for the conversation, no long-term lines) without surfacing and without
affecting the other fetch's result, and the result never depends on the
calendar outcome. -/
theorem C6_assembler (conv : Except Unit (List MemMsg))
    (search : Except Unit (List LongTermMemory)) (cal cal' : Except Unit String) :
    get_combined_context conv search cal
      = (get_conversation_context conv 5, format_long_term (search_long_term_memory search)) ∧
    get_combined_context conv search cal = get_combined_context conv search cal' ∧
    get_combined_context (.error ()) search cal
      = ("", format_long_term (search_long_term_memory search)) ∧
    get_combined_context conv (.error ()) cal
      = (get_conversation_context conv 5, "") := by
  exact ⟨rfl, rfl, rfl, rfl⟩

/-! ## Claim C8 -/

/-- Claim C8: `detect` returns an `IntentResult` on every input — the LLM
call's exception path is caught and degrades to the deterministic
`llm_fallback` of the text alone — and in the rule-based configuration
(`use_llm = False`, the constructor default), when no rule matches, the
default classification is ASK_JOURNAL at confidence 0.5 when the text
contains a question mark or starts with an interrogative word, and
LOG_ENTRY at confidence 0.5 otherwise. -/
theorem C8_detect_default (text : String) (now : Int) (o : Except Unit String) :
    detect false none now o text
      = (if is_question_like text
         then ⟨.ask_journal, 1 / 2, .query text, text⟩
         else ⟨.log_entry, 1 / 2, .content text, text⟩) ∧
    detect true none now (.error ()) text = llm_fallback text ∧
    is_question_like text
      = (text.contains '?'
         || (["what", "when", "how", "why", "where", "who", "did", "have", "do"].any
              (fun w => text.toLower.startsWith w))) := by
  refine ⟨?_, rfl, rfl⟩
  unfold detect
  by_cases h : is_question_like text = true
  · rw [if_pos h]
    rfl
  · rw [if_neg h]
    rfl

/-! ## Claim C3 -/

theorem mem_search_similar (s : Store) (u : String) (d : JournalEntry → ℚ) (now : ℚ)
    (k : Nat) (boost : ℚ) (p : JournalEntry × ℚ)
    (hp : p ∈ search_similar s u d now k boost) :
    ∃ e, e ∈ knn_candidates s u d k ∧ p = (e, combined_score boost now (d e) e.ts) := by
  unfold search_similar at hp
  have hp1 := List.mem_of_mem_take hp
  have hp2 := (List.mem_insertionSort _).mp hp1
  obtain ⟨e, he, hpe⟩ := List.mem_map.mp hp2
  exact ⟨e, he, hpe.symm⟩

theorem mem_knn_candidates (s : Store) (u : String) (d : JournalEntry → ℚ) (k : Nat)
    (e : JournalEntry) (he : e ∈ knn_candidates s u d k) :
    e ∈ s ∧ (e.user_id == u && !e.deleted) = true := by
  unfold knn_candidates at he
  have h1 := List.mem_of_mem_take he
  have h2 := (List.mem_insertionSort _).mp h1
  exact List.mem_filter.mp h2

/-- Claim C3: `search_similar` retrieves the `2k` non-deleted entries of the
user nearest to the query by vector distance, scores each candidate as
`combined = (1 - recency_boost) * (1 - cosine_distance) + recency_boost *
max(0, 1 - age/max_age)` with `max_age` = 30 days = 2592000 seconds, and
returns candidates sorted descending by combined score, truncated to at most
`k`; the signature defaults are `k = 5` and `recency_boost = 0.3`.  Stated
as: the result has at most `k` elements and is sorted descending by score;
every returned pair is a stored, non-deleted entry of the user carrying
exactly the combined-score value; the candidate pool has exactly
`min (2k, number of eligible entries)` members and every returned entry is
at least as near to the query as every eligible entry left out of the
pool. -/
theorem C3_search_similar (s : Store) (u : String) (d : JournalEntry → ℚ) (now : ℚ)
    (k : Nat) (boost : ℚ) :
    (search_similar s u d now k boost).length ≤ k ∧
    List.Pairwise (fun p q : JournalEntry × ℚ => q.2 ≤ p.2)
      (search_similar s u d now k boost) ∧
    (∀ p : JournalEntry × ℚ, p ∈ search_similar s u d now k boost →
      p.1 ∈ s ∧ p.1.user_id = u ∧ p.1.deleted = false ∧
      p.2 = (1 - boost) * (1 - d p.1)
              + boost * max 0 (1 - (now - p.1.ts) / (30 * 24 * 3600))) ∧
    (knn_candidates s u d k).length
      = min (k * 2) ((s.filter (fun e => e.user_id == u && !e.deleted)).length) ∧
    (∀ p : JournalEntry × ℚ, p ∈ search_similar s u d now k boost →
      ∀ e' : JournalEntry, e' ∈ s → e'.user_id = u → e'.deleted = false →
        e' ∉ knn_candidates s u d k → d p.1 ≤ d e') ∧
    search_similar_defaults s u d now = search_similar s u d now 5 (3 / 10) ∧
    max_age = 2592000 := by
  haveI hts : IsTrans (JournalEntry × ℚ) (fun a b => b.2 ≤ a.2) :=
    ⟨fun a b c hab hbc => le_trans hbc hab⟩
  haveI htos : IsTotal (JournalEntry × ℚ) (fun a b => b.2 ≤ a.2) :=
    ⟨fun a b => le_total b.2 a.2⟩
  haveI hte : IsTrans JournalEntry (fun a b => d a ≤ d b) :=
    ⟨fun a b c hab hbc => le_trans hab hbc⟩
  haveI htoe : IsTotal JournalEntry (fun a b => d a ≤ d b) :=
    ⟨fun a b => le_total (d a) (d b)⟩
  refine ⟨?_, ?_, ?_, ?_, ?_, rfl, by norm_num [max_age]⟩
  · unfold search_similar
    rw [List.length_take]
    exact min_le_left _ _
  · unfold search_similar
    exact List.Pairwise.sublist (List.take_sublist _ _)
      (List.sorted_insertionSort (fun (a b : JournalEntry × ℚ) => b.2 ≤ a.2) _)
  · intro p hp
    obtain ⟨e, he, rfl⟩ := mem_search_similar s u d now k boost p hp
    obtain ⟨hes, hprop⟩ := mem_knn_candidates s u d k e he
    have hu : e.user_id = u := by
      have := ((Bool.and_eq_true _ _).mp hprop).1
      simpa using this
    have hdel : e.deleted = false := by
      have := ((Bool.and_eq_true _ _).mp hprop).2
      simpa using this
    exact ⟨hes, hu, hdel, by simp [combined_score, max_age]⟩
  · unfold knn_candidates
    rw [List.length_take, List.length_insertionSort]
  · intro p hp e' he's hu hdel hnot
    obtain ⟨e, he, rfl⟩ := mem_search_similar s u d now k boost p hp
    have he'elig : e' ∈ s.filter (fun e => e.user_id == u && !e.deleted) :=
      List.mem_filter.mpr ⟨he's, by simp [hu, hdel]⟩
    have he'sorted : e' ∈ List.insertionSort (fun a b => d a ≤ d b)
        (s.filter (fun e => e.user_id == u && !e.deleted)) :=
      (List.mem_insertionSort _).mpr he'elig
    have hsortedE := List.sorted_insertionSort (fun a b => d a ≤ d b)
      (s.filter (fun e => e.user_id == u && !e.deleted))
    rw [← List.take_append_drop (k * 2)
      (List.insertionSort (fun a b => d a ≤ d b)
        (s.filter (fun e => e.user_id == u && !e.deleted)))] at he'sorted hsortedE
    rcases List.mem_append.mp he'sorted with hleft | hright
    · exact absurd hleft hnot
    · have hrel := (List.pairwise_append.mp hsortedE).2.2 e he e' hright
      simpa using hrel

/-- Concrete evaluation of the ranking pipeline: with `recency_boost = 0`
and distances 0 and 1, the nearer entry wins and the result is truncated to
`k = 1`. -/
theorem search_similar_demo :
    search_similar
      [⟨"a", "u", 100, "ta", false⟩, ⟨"b", "u", 100, "tb", false⟩]
      "u" (fun e => if e.id == "a" then 0 else 1) 100 1 0
      = [(⟨"a", "u", 100, "ta", false⟩, 1)] := by
  norm_num [search_similar, knn_candidates, combined_score, max_age,
    List.insertionSort, List.orderedInsert]
  norm_num [show ("b" : String) ≠ "a" from by decide]
